import Mathlib

/-!
Verification of the implicit linear-operator layer of
`src/python/pygimli/core/matrix.py`: the scaling wrappers
(`MultLeftMatrix`, `MultRightMatrix`, `MultLeftRightMatrix`), the sum and
product combinators (`Add2Matrix`, `Mult2Matrix`), `DiagonalMatrix`, the
inverse-square-root operator `Cm05Matrix` and the block-diagonal
`NDMatrix` constructor.

Vectors are modelled as `List ℚ` (exact rationals; `List ℝ` for the
eigen-decomposition based `Cm05Matrix`).  Python exceptions are modelled
by the error type `PyErr`; every fallible operation returns
`Except PyErr _`.  Element-wise arithmetic on vectors of unequal length
is modelled as a `dimError` (the pgcore vector types and numpy reject
such operands).
-/

namespace PgMatrix

/-- Kinds of Python exception the embedded code can raise.
`exception` models a generic `raise Exception(...)`, `assertionError`
a failed `assert` statement, `attributeError` an access of or an
assignment to a missing attribute, `nameError` the use of an unbound
name, and `dimError` a size-mismatch error from element-wise vector or
matrix arithmetic. -/
inductive PyErr where
  | exception
  | assertionError
  | attributeError
  | nameError
  | dimError
  deriving DecidableEq, Repr

/-- Vectors handed to the operator layer: finite sequences of exact
rationals. -/
abbrev Vec := List ℚ

/-- Element-wise product `a ⊙ b` on equal-length vectors
(the truncating `zipWith`; all uses below are on equal lengths). -/
def emul {α : Type} [Mul α] (a b : List α) : List α :=
  List.zipWith (· * ·) a b

/-- Element-wise product as a fallible operation: the pgcore vector
types and numpy raise on operands of different length. -/
def emulE {α : Type} [Mul α] (a b : List α) : Except PyErr (List α) :=
  if a.length = b.length then .ok (emul a b) else .error .dimError

/-- Element-wise sum as a fallible operation. -/
def eaddE {α : Type} [Add α] (a b : List α) : Except PyErr (List α) :=
  if a.length = b.length then .ok (List.zipWith (· + ·) a b) else .error .dimError

/-- Dot product of two vectors. -/
def dotP {α : Type} [Mul α] [AddCommMonoid α] (a b : List α) : α :=
  (emul a b).sum

/-- `true` on `ok`, `false` on `error`. -/
def okB {ε α : Type} : Except ε α → Bool
  | .ok _ => true
  | .error _ => false

/-- The computation succeeded with a vector of length `n`. -/
def OkLen (e : Except PyErr Vec) (n : ℕ) : Prop :=
  ∃ v, e = .ok v ∧ v.length = n

instance {ε α : Type} [DecidableEq ε] [DecidableEq α] : DecidableEq (Except ε α) := fun a b =>
  match a, b with
  | .ok x, .ok y =>
      if h : x = y then isTrue (by rw [h])
      else isFalse (by intro hc; injection hc with h2; exact h h2)
  | .error e, .error f =>
      if h : e = f then isTrue (by rw [h])
      else isFalse (by intro hc; injection hc with h2; exact h h2)
  | .ok _, .error _ => isFalse (fun hc => Except.noConfusion hc)
  | .error _, .ok _ => isFalse (fun hc => Except.noConfusion hc)

/-- The operator contract (spec section 4.1): row and column extents
together with forward and adjoint application, both fallible.  Concrete
leaf matrices (pgcore dense and sparse matrices) implement this
interface; the layer under verification composes such operators. -/
structure LinOp where
  rows : ℕ
  cols : ℕ
  mult : Vec → Except PyErr Vec
  transMult : Vec → Except PyErr Vec

/-- A well-formed leaf operator: application succeeds exactly on inputs
of the declared length and then returns a vector of the dual length. -/
structure LinOp.WF (A : LinOp) : Prop where
  mult_ok : ∀ x, x.length = A.cols → ∃ u, A.mult x = .ok u ∧ u.length = A.rows
  mult_err : ∀ x, x.length ≠ A.cols → okB (A.mult x) = false
  transMult_ok : ∀ y, y.length = A.rows → ∃ v, A.transMult y = .ok v ∧ v.length = A.cols
  transMult_err : ∀ y, y.length ≠ A.rows → okB (A.transMult y) = false

/-- Adjoint consistency of an operator: `dot (O x) y = dot x (Oᵀ y)`
whenever both applications succeed on correctly sized inputs. -/
def LinOp.AdjointConsistent (O : LinOp) : Prop :=
  ∀ x y u v, x.length = O.cols → y.length = O.rows →
    O.mult x = .ok u → O.transMult y = .ok v → dotP u y = dotP x v

/-- A concrete leaf operator used to instantiate the theorems below: the
diagonal matrix with diagonal `d`, implementing the operator contract
directly. -/
def diagOp (d : Vec) : LinOp where
  rows := d.length
  cols := d.length
  mult := fun x => if x.length = d.length then .ok (emul x d) else .error .dimError
  transMult := fun x => if x.length = d.length then .ok (emul x d) else .error .dimError

theorem length_emul {α : Type} [Mul α] (a b : List α) :
    (emul a b).length = min a.length b.length := by
  simp [emul]

theorem emul_cons {α : Type} [Mul α] (x y : α) (xs ys : List α) :
    emul (x :: xs) (y :: ys) = (x * y) :: emul xs ys := rfl

theorem dotP_nil_left {α : Type} [Mul α] [AddCommMonoid α] (b : List α) :
    dotP ([] : List α) b = 0 := rfl

theorem dotP_nil_right {α : Type} [Mul α] [AddCommMonoid α] (a : List α) :
    dotP a ([] : List α) = 0 := by
  simp [dotP, emul]

theorem dotP_cons {α : Type} [Mul α] [AddCommMonoid α] (x y : α) (xs ys : List α) :
    dotP (x :: xs) (y :: ys) = x * y + dotP xs ys := by
  simp [dotP, emul]

theorem emul_comm {α : Type} [CommMonoid α] (a b : List α) :
    emul a b = emul b a := by
  induction a generalizing b with
  | nil => cases b <;> simp [emul]
  | cons x xs ih =>
    cases b with
    | nil => simp [emul]
    | cons y ys =>
      rw [emul_cons, emul_cons, mul_comm, ih]

/-- Pushing an element-wise factor across a dot product:
`dot (a ⊙ c) b = dot a (b ⊙ c)`. -/
theorem dot_emul {α : Type} [CommSemiring α] :
    ∀ (a c b : List α), dotP (emul a c) b = dotP a (emul b c) := by
  intro a
  induction a with
  | nil => intro c b; simp [dotP, emul]
  | cons x xs ih =>
    intro c b
    cases c with
    | nil => simp [dotP, emul]
    | cons hc tc =>
      cases b with
      | nil => simp [dotP, emul]
      | cons hb tb =>
        rw [emul_cons, dotP_cons, emul_cons, dotP_cons, ih tc tb]
        ring_nf

theorem dot_zipAdd_left {α : Type} [CommSemiring α] :
    ∀ (a b y : List α), a.length = b.length →
      dotP (List.zipWith (· + ·) a b) y = dotP a y + dotP b y := by
  intro a
  induction a with
  | nil =>
    intro b y h
    cases b
    · simp [dotP, emul]
    · simp at h
  | cons x xs ih =>
    intro b y h
    cases b with
    | nil => simp at h
    | cons hb tb =>
      cases y with
      | nil => simp [dotP_nil_right]
      | cons hy ty =>
        simp only [List.zipWith_cons_cons, dotP_cons]
        rw [ih tb ty (by simpa using h)]
        ring

theorem dot_zipAdd_right {α : Type} [CommSemiring α] :
    ∀ (x u v : List α), u.length = v.length →
      dotP x (List.zipWith (· + ·) u v) = dotP x u + dotP x v := by
  intro x
  induction x with
  | nil => intro u v h; simp [dotP_nil_left]
  | cons hx tx ih =>
    intro u v h
    cases u with
    | nil =>
      cases v
      · simp [dotP_nil_right]
      · simp at h
    | cons hu tu =>
      cases v with
      | nil => simp at h
      | cons hv tv =>
        simp only [List.zipWith_cons_cons, dotP_cons]
        rw [ih tu tv (by simpa using h)]
        ring

theorem exceptBind_ok {ε α β : Type} {e : Except ε α} {f : α → Except ε β} {b : β}
    (h : e.bind f = .ok b) : ∃ a, e = .ok a ∧ f a = .ok b := by
  cases e with
  | ok a => exact ⟨a, rfl, h⟩
  | error er => simp [Except.bind] at h

theorem exceptBind_error {ε α β : Type} (er : ε) (f : α → Except ε β) :
    (Except.error er : Except ε α).bind f = .error er := rfl

theorem okB_eq_false_iff {ε α : Type} (e : Except ε α) :
    okB e = false ↔ ∃ er, e = .error er := by
  cases e <;> simp [okB]

theorem emulE_eq_ok {α : Type} [Mul α] {a b c : List α}
    (h : emulE a b = .ok c) : a.length = b.length ∧ c = emul a b := by
  unfold emulE at h
  split at h
  · exact ⟨by assumption, by injection h with h2; exact h2.symm⟩
  · exact absurd h (by simp)

theorem emulE_of_eq {α : Type} [Mul α] {a b : List α}
    (h : a.length = b.length) : emulE a b = .ok (emul a b) := by
  simp [emulE, h]

theorem eaddE_eq_ok {α : Type} [Add α] {a b c : List α}
    (h : eaddE a b = .ok c) : a.length = b.length ∧ c = List.zipWith (· + ·) a b := by
  unfold eaddE at h
  split at h
  · exact ⟨by assumption, by injection h with h2; exact h2.symm⟩
  · exact absurd h (by simp)

theorem eaddE_of_eq {α : Type} [Add α] {a b : List α}
    (h : a.length = b.length) : eaddE a b = .ok (List.zipWith (· + ·) a b) := by
  simp [eaddE, h]

/-- Output length of a successful forward application of a well-formed
operator. -/
theorem LinOp.WF.mult_len {A : LinOp} (hA : A.WF) {x u : Vec}
    (hx : x.length = A.cols) (hu : A.mult x = .ok u) : u.length = A.rows := by
  obtain ⟨u2, h1, h2⟩ := hA.mult_ok x hx
  rw [hu] at h1
  injection h1 with h3
  exact h3 ▸ h2

/-- Output length of a successful adjoint application of a well-formed
operator. -/
theorem LinOp.WF.transMult_len {A : LinOp} (hA : A.WF) {y v : Vec}
    (hy : y.length = A.rows) (hv : A.transMult y = .ok v) : v.length = A.cols := by
  obtain ⟨v2, h1, h2⟩ := hA.transMult_ok y hy
  rw [hv] at h1
  injection h1 with h3
  exact h3 ▸ h2

theorem diagOp_wf (d : Vec) : (diagOp d).WF := by
  constructor
  · intro x hx
    refine ⟨emul x d, ?_, ?_⟩
    · simp [diagOp, hx]
    · simp [length_emul, hx, diagOp]
  · intro x hx
    simp only [diagOp] at hx ⊢
    simp [hx, okB]
  · intro y hy
    refine ⟨emul y d, ?_, ?_⟩
    · simp [diagOp, hy]
    · simp [length_emul, hy, diagOp]
  · intro y hy
    simp only [diagOp] at hy ⊢
    simp [hy, okB]

theorem diagOp_adj (d : Vec) : (diagOp d).AdjointConsistent := by
  intro x y u v hx hy hu hv
  simp only [diagOp] at hx hy hu hv
  rw [if_pos hx] at hu
  rw [if_pos hy] at hv
  injection hu with hu2
  injection hv with hv2
  rw [← hu2, ← hv2]
  exact dot_emul x d y

/-! ## Scaling wrappers (matrix.py lines 24-152)

Each Python class is modelled by the record of its instance state after
`__init__`; the constructor itself is a fallible function returning that
state, and each method is a function on the state.  Attribute
assignments through properties are modelled by `setAttr…` functions. -/

/-- State of a `MultLeftMatrix` (lines 49-58): the base operator and the
left-hand weighting vector `_l`. -/
structure MultLeftMatrix where
  A : LinOp
  l : Vec

/-- `MultLeftMatrix.__init__` (lines 52-58): raises a generic `Exception`
when `A.rows() != len(left)`. -/
def MultLeftMatrix.init (A : LinOp) (left : Vec) : Except PyErr MultLeftMatrix :=
  if A.rows ≠ left.length then .error .exception else .ok ⟨A, left⟩

/-- `MultMatrix.rows` (lines 36-38): delegates to the base operator. -/
def MultLeftMatrix.rows (m : MultLeftMatrix) : ℕ := m.A.rows

/-- `MultMatrix.cols` (lines 40-42): delegates to the base operator. -/
def MultLeftMatrix.cols (m : MultLeftMatrix) : ℕ := m.A.cols

/-- `MultLeftMatrix.mult` (lines 67-69): `A.mult(x) * l`. -/
def MultLeftMatrix.mult (m : MultLeftMatrix) (x : Vec) : Except PyErr Vec :=
  (m.A.mult x).bind (fun u => emulE u m.l)

/-- `MultLeftMatrix.transMult` (lines 71-73): `A.transMult(x * l)`. -/
def MultLeftMatrix.transMult (m : MultLeftMatrix) (x : Vec) : Except PyErr Vec :=
  (emulE x m.l).bind (fun w => m.A.transMult w)

/-- Assignment `m.l = v`: the property `l` of `MultLeftMatrix`
(lines 60-62) has a getter only — the function decorated with
`@l.setter` on lines 63-65 is named `r`, so it becomes a separate class
attribute and the property `l` keeps no setter.  Python therefore raises
`AttributeError` on assignment to `l`. -/
def MultLeftMatrix.setAttrL (_m : MultLeftMatrix) (_v : Vec) : Except PyErr MultLeftMatrix :=
  .error .attributeError

/-- Assignment `m.r = v`: the setter produced on lines 63-65 is bound to
the class attribute `r` and stores its argument into `_l`,
unconditionally. -/
def MultLeftMatrix.setAttrR (m : MultLeftMatrix) (v : Vec) : Except PyErr MultLeftMatrix :=
  .ok ⟨m.A, v⟩

/-- State of a `MultRightMatrix` (lines 78-87): the base operator and the
right-hand weighting vector `_r`. -/
structure MultRightMatrix where
  A : LinOp
  r : Vec

/-- `MultRightMatrix.__init__` (lines 81-87): performs no length
validation; `r = None` defaults to a vector of ones of length
`cols()`. -/
def MultRightMatrix.init (A : LinOp) (r? : Option Vec) : Except PyErr MultRightMatrix :=
  .ok ⟨A, r?.getD (List.replicate A.cols 1)⟩

/-- `MultMatrix.rows`: delegates to the base operator. -/
def MultRightMatrix.rows (m : MultRightMatrix) : ℕ := m.A.rows

/-- `MultMatrix.cols`: delegates to the base operator. -/
def MultRightMatrix.cols (m : MultRightMatrix) : ℕ := m.A.cols

/-- `MultRightMatrix.mult` (lines 97-107): when
`len(x) != len(self.r)` the fallback branch evaluates `self.perm` — an
attribute assigned nowhere in the module — so the call raises
`AttributeError`; otherwise it returns `A.mult(x * r)`. -/
def MultRightMatrix.mult (m : MultRightMatrix) (x : Vec) : Except PyErr Vec :=
  if x.length ≠ m.r.length then .error .attributeError
  else m.A.mult (emul x m.r)

/-- `MultRightMatrix.transMult` (lines 109-112): `A.transMult(x) * r`. -/
def MultRightMatrix.transMult (m : MultRightMatrix) (x : Vec) : Except PyErr Vec :=
  (m.A.transMult x).bind (fun v => emulE v m.r)

/-- Assignment `m.r = v` (lines 93-95): stores unconditionally. -/
def MultRightMatrix.setAttrR (m : MultRightMatrix) (v : Vec) : Except PyErr MultRightMatrix :=
  .ok ⟨m.A, v⟩

/-- State of a `MultLeftRightMatrix` (lines 117-129): the base operator
and both weighting vectors. -/
structure MultLeftRightMatrix where
  A : LinOp
  l : Vec
  r : Vec

/-- `MultLeftRightMatrix.__init__` (lines 120-129): raises when
`A.cols() != len(right)`, then when `A.rows() != len(left)`. -/
def MultLeftRightMatrix.init (A : LinOp) (left right : Vec) :
    Except PyErr MultLeftRightMatrix :=
  if A.cols ≠ right.length then .error .exception
  else if A.rows ≠ left.length then .error .exception
  else .ok ⟨A, left, right⟩

/-- `MultMatrix.rows`: delegates to the base operator. -/
def MultLeftRightMatrix.rows (m : MultLeftRightMatrix) : ℕ := m.A.rows

/-- `MultMatrix.cols`: delegates to the base operator. -/
def MultLeftRightMatrix.cols (m : MultLeftRightMatrix) : ℕ := m.A.cols

/-- `MultLeftRightMatrix.mult` (lines 144-146): `A.mult(x * r) * l`. -/
def MultLeftRightMatrix.mult (m : MultLeftRightMatrix) (x : Vec) : Except PyErr Vec :=
  (emulE x m.r).bind (fun w => (m.A.mult w).bind (fun u => emulE u m.l))

/-- `MultLeftRightMatrix.transMult` (lines 148-150):
`A.transMult(x * l) * r`. -/
def MultLeftRightMatrix.transMult (m : MultLeftRightMatrix) (x : Vec) : Except PyErr Vec :=
  (emulE x m.l).bind (fun w => (m.A.transMult w).bind (fun v => emulE v m.r))

/-- Assignment `m.l = v`: the property `l` (lines 131-133) has a getter
only — the setter on lines 134-136 is bound to the name `r` and is then
shadowed by the `r` property of lines 137-142 — so assignment to `l`
raises `AttributeError`. -/
def MultLeftRightMatrix.setAttrL (_m : MultLeftRightMatrix) (_v : Vec) :
    Except PyErr MultLeftRightMatrix :=
  .error .attributeError

/-- Assignment `m.r = v` (lines 140-142): stores into `_r`
unconditionally. -/
def MultLeftRightMatrix.setAttrR (m : MultLeftRightMatrix) (v : Vec) :
    Except PyErr MultLeftRightMatrix :=
  .ok ⟨m.A, m.l, v⟩

/-! ## Sum and product combinators, diagonal operator
(matrix.py lines 174-248) -/

/-- State of an `Add2Matrix` (lines 174-182). -/
structure Add2Matrix where
  A : LinOp
  B : LinOp

/-- `Add2Matrix.__init__` (lines 177-182): `assert A.rows() == B.rows()`
then `assert A.cols() == B.cols()`. -/
def Add2Matrix.init (A B : LinOp) : Except PyErr Add2Matrix :=
  if A.rows ≠ B.rows then .error .assertionError
  else if A.cols ≠ B.cols then .error .assertionError
  else .ok ⟨A, B⟩

/-- `Add2Matrix.mult` (lines 184-186): `A.mult(x) + B.mult(x)`. -/
def Add2Matrix.mult (m : Add2Matrix) (x : Vec) : Except PyErr Vec :=
  (m.A.mult x).bind (fun a => (m.B.mult x).bind (fun b => eaddE a b))

/-- `Add2Matrix.transMult` (lines 188-190):
`A.transMult(x) + B.transMult(x)`. -/
def Add2Matrix.transMult (m : Add2Matrix) (x : Vec) : Except PyErr Vec :=
  (m.A.transMult x).bind (fun a => (m.B.transMult x).bind (fun b => eaddE a b))

/-- `Add2Matrix.cols` (lines 192-194): `A.cols()`. -/
def Add2Matrix.cols (m : Add2Matrix) : ℕ := m.A.cols

/-- `Add2Matrix.rows` (lines 196-198): `A.rows()`. -/
def Add2Matrix.rows (m : Add2Matrix) : ℕ := m.A.rows

/-- State of a `Mult2Matrix` (lines 201-208). -/
structure Mult2Matrix where
  A : LinOp
  B : LinOp

/-- `Mult2Matrix.__init__` (lines 204-208):
`assert A.cols() == B.rows()`. -/
def Mult2Matrix.init (A B : LinOp) : Except PyErr Mult2Matrix :=
  if A.cols ≠ B.rows then .error .assertionError else .ok ⟨A, B⟩

/-- `Mult2Matrix.mult` (lines 210-212): `A.mult(B.mult(x))`. -/
def Mult2Matrix.mult (m : Mult2Matrix) (x : Vec) : Except PyErr Vec :=
  (m.B.mult x).bind (fun w => m.A.mult w)

/-- `Mult2Matrix.transMult` (lines 214-216):
`B.transMult(A.transMult(x))`. -/
def Mult2Matrix.transMult (m : Mult2Matrix) (x : Vec) : Except PyErr Vec :=
  (m.A.transMult x).bind (fun v => m.B.transMult v)

/-- `Mult2Matrix.cols` (lines 218-220): `B.cols()`. -/
def Mult2Matrix.cols (m : Mult2Matrix) : ℕ := m.B.cols

/-- `Mult2Matrix.rows` (lines 222-224): `A.rows()`. -/
def Mult2Matrix.rows (m : Mult2Matrix) : ℕ := m.A.rows

/-- State of a `DiagonalMatrix` (lines 227-232): its diagonal vector.
The constructor performs no validation. -/
structure DiagonalMatrix where
  d : Vec

/-- `DiagonalMatrix.mult` (lines 234-236): `x * d` element-wise. -/
def DiagonalMatrix.mult (m : DiagonalMatrix) (x : Vec) : Except PyErr Vec :=
  emulE x m.d

/-- `DiagonalMatrix.transMult` (lines 238-240): `x * d` element-wise. -/
def DiagonalMatrix.transMult (m : DiagonalMatrix) (x : Vec) : Except PyErr Vec :=
  emulE x m.d

/-- `DiagonalMatrix.cols` (lines 242-244): `len(d)`. -/
def DiagonalMatrix.cols (m : DiagonalMatrix) : ℕ := m.d.length

/-- `DiagonalMatrix.rows` (lines 246-248): `len(d)`. -/
def DiagonalMatrix.rows (m : DiagonalMatrix) : ℕ := m.d.length

/-! Views of the wrapper states as operators, for composed statements. -/

/-- A `MultLeftMatrix` as an operator. -/
def MultLeftMatrix.toLinOp (m : MultLeftMatrix) : LinOp :=
  ⟨m.A.rows, m.A.cols, m.mult, m.transMult⟩

/-- A `MultRightMatrix` as an operator. -/
def MultRightMatrix.toLinOp (m : MultRightMatrix) : LinOp :=
  ⟨m.A.rows, m.A.cols, m.mult, m.transMult⟩

/-- A `MultLeftRightMatrix` as an operator. -/
def MultLeftRightMatrix.toLinOp (m : MultLeftRightMatrix) : LinOp :=
  ⟨m.A.rows, m.A.cols, m.mult, m.transMult⟩

/-- An `Add2Matrix` as an operator. -/
def Add2Matrix.toLinOp (m : Add2Matrix) : LinOp :=
  ⟨m.A.rows, m.A.cols, m.mult, m.transMult⟩

/-- A `Mult2Matrix` as an operator. -/
def Mult2Matrix.toLinOp (m : Mult2Matrix) : LinOp :=
  ⟨m.A.rows, m.B.cols, m.mult, m.transMult⟩

/-- A `DiagonalMatrix` as an operator. -/
def DiagonalMatrix.toLinOp (m : DiagonalMatrix) : LinOp :=
  ⟨m.d.length, m.d.length, m.mult, m.transMult⟩

/-! ## Inverse-square-root operator (matrix.py lines 251-294)

`Cm05Matrix` works on numpy arrays; it is modelled over `ℝ`
(`np.sqrt` as `Real.sqrt`).  The eigen-decomposition `scipy.linalg.eigh`
is an external library routine, so its outputs `ew` (eigenvalues) and
`EV` (eigenvector matrix, a list of rows) are parameters of the model. -/

/-- Real matrix-vector product, the matrix given as a list of rows. -/
def matVecR (M : List (List ℝ)) (v : List ℝ) : List ℝ :=
  M.map (fun row => dotP row v)

/-- Fallible real matrix-vector product: `np.dot` requires the inner
dimensions to agree. -/
def matVecE (M : List (List ℝ)) (v : List ℝ) : Except PyErr (List ℝ) :=
  if M.all (fun row => row.length == v.length) then .ok (matVecR M v)
  else .error .dimError

/-- State of a `Cm05Matrix` after `__init__` (lines 254-276): the size,
the eigenvalues `ew`, the eigenvector matrix `EV` and the scale vector
`mul`. -/
structure Cm05Matrix where
  size : ℕ
  ew : List ℝ
  EV : List (List ℝ)
  mul : List ℝ

/-- `Cm05Matrix.__init__` (lines 254-276): raises when the shape is not
square, then stores the `eigh` outputs and the scales
`np.sqrt(1. / ew)`. -/
noncomputable def Cm05Matrix.init (shape : ℕ × ℕ) (ew : List ℝ) (EV : List (List ℝ)) :
    Except PyErr Cm05Matrix :=
  if shape.1 ≠ shape.2 then .error .exception
  else .ok ⟨shape.1, ew, EV, ew.map (fun e => Real.sqrt e⁻¹)⟩

/-- `Cm05Matrix.rows` (lines 278-280): the stored size. -/
def Cm05Matrix.rows (m : Cm05Matrix) : ℕ := m.size

/-- `Cm05Matrix.cols` (lines 282-284): the stored size. -/
def Cm05Matrix.cols (m : Cm05Matrix) : ℕ := m.size

/-- `Cm05Matrix.mult` (lines 286-289):
`part1 = (np.dot(np.transpose(x), EV).T * mul)` — the row-vector product
`xᵀ·EV`, which is the product of the transpose of `EV` with `x`, scaled
element-wise by `mul` — followed by `EV.dot(part1)`. -/
def Cm05Matrix.mult (m : Cm05Matrix) (x : List ℝ) : Except PyErr (List ℝ) :=
  (matVecE m.EV.transpose x).bind
    (fun p => (emulE p m.mul).bind (fun q => matVecE m.EV q))

/-- `Cm05Matrix.transMult` (lines 292-294): `return self.mult(x)`. -/
def Cm05Matrix.transMult (m : Cm05Matrix) (x : List ℝ) : Except PyErr (List ℝ) :=
  m.mult x

/-- The specification formula for the inverse-square-root apply: project
onto the eigenbasis, scale, project back — `V·(s ⊙ (Vᵗ·x))`. -/
def invSqrtApply (V : List (List ℝ)) (s x : List ℝ) : List ℝ :=
  matVecR V (emul (matVecR V.transpose x) s)

/-! ## Block-diagonal constructor (matrix.py lines 296-312) -/

/-- State of an `NDMatrix` after a successful construction: the
placement entries `(rowOffset, colOffset, nrows, ncols)` of the owned
blocks and the recomputed overall extents. -/
structure NDMatrix where
  entries : List (ℕ × ℕ × ℕ × ℕ)
  rows : ℕ
  cols : ℕ

/-- `NDMatrix.__init__` (lines 302-312).  The loop body executes
`self.Ji.append(pg.Matrix())`, but the name `pg` is bound nowhere in the
module (`matrix.py` imports `pgcore` and aliases
`Matrix = pgcore.RMatrix`, never `pg`), so the first iteration raises
`NameError`.  With `num = 0` the loop body never runs and construction
succeeds with no entries; that branch is modelled from the spec:
`recalcMatrixSize` of the pgcore block matrix recomputes the extents as
maxima over the (here empty) entry list, giving shape `(0, 0)`. -/
def NDMatrix.init (num _nrows _ncols : ℕ) : Except PyErr NDMatrix :=
  if num = 0 then .ok ⟨[], 0, 0⟩ else .error .nameError

/-! ## Claims -/

/-- Claim C1: scaling wrapper semantics.  For every well-formed base
operator `A`, weighting vectors `l` (length `rows`) and `r` (length
`cols`), and correctly sized inputs `x` and `y`:
`MultRightMatrix(A, r).mult(x) = A.mult(x ⊙ r)` and
`.transMult(y) = A.transMult(y) ⊙ r`;
`MultLeftMatrix(A, l).mult(x) = A.mult(x) ⊙ l` and
`.transMult(y) = A.transMult(y ⊙ l)`;
`MultLeftRightMatrix(A, l, r).mult(x) = l ⊙ A.mult(x ⊙ r)` and
`.transMult(y) = r ⊙ A.transMult(y ⊙ l)` — where `u`, `z`, `u2`, `z2`
name the (successful) base applications involved. -/
theorem claim1_scaling_wrappers
    (A : LinOp) (hA : A.WF) (l r x y u z u2 z2 : Vec)
    (hl : l.length = A.rows) (hr : r.length = A.cols)
    (hx : x.length = A.cols) (hy : y.length = A.rows)
    (hu : A.mult x = .ok u) (hz : A.transMult y = .ok z)
    (hu2 : A.mult (emul x r) = .ok u2) (hz2 : A.transMult (emul y l) = .ok z2) :
    MultRightMatrix.init A (some r) = .ok ⟨A, r⟩ ∧
    (MultRightMatrix.mk A r).mult x = A.mult (emul x r) ∧
    (MultRightMatrix.mk A r).transMult y = .ok (emul z r) ∧
    MultLeftMatrix.init A l = .ok ⟨A, l⟩ ∧
    (MultLeftMatrix.mk A l).mult x = .ok (emul u l) ∧
    (MultLeftMatrix.mk A l).transMult y = A.transMult (emul y l) ∧
    MultLeftRightMatrix.init A l r = .ok ⟨A, l, r⟩ ∧
    (MultLeftRightMatrix.mk A l r).mult x = .ok (emul l u2) ∧
    (MultLeftRightMatrix.mk A l r).transMult y = .ok (emul r z2) := by
  have hxr : x.length = r.length := hx.trans hr.symm
  have hyl : y.length = l.length := hy.trans hl.symm
  have hzl : z.length = r.length := (hA.transMult_len hy hz).trans hr.symm
  have hul : u.length = l.length := (hA.mult_len hx hu).trans hl.symm
  have hexr : (emul x r).length = A.cols := by
    rw [length_emul, hx, hr]; exact min_self _
  have heyl : (emul y l).length = A.rows := by
    rw [length_emul, hy, hl]; exact min_self _
  have hu2l : u2.length = l.length := (hA.mult_len hexr hu2).trans hl.symm
  have hz2r : z2.length = r.length := (hA.transMult_len heyl hz2).trans hr.symm
  refine ⟨rfl, ?_, ?_, ?_, ?_, ?_, ?_, ?_, ?_⟩
  · simp [MultRightMatrix.mult, hxr]
  · simp [MultRightMatrix.transMult, hz, Except.bind, emulE_of_eq hzl]
  · simp [MultLeftMatrix.init, hl]
  · simp [MultLeftMatrix.mult, hu, Except.bind, emulE_of_eq hul]
  · simp [MultLeftMatrix.transMult, emulE_of_eq hyl, Except.bind]
  · simp [MultLeftRightMatrix.init, hl, hr]
  · rw [emul_comm l u2]
    simp [MultLeftRightMatrix.mult, emulE_of_eq hxr, Except.bind, hu2,
      emulE_of_eq hu2l]
  · rw [emul_comm r z2]
    simp [MultLeftRightMatrix.transMult, emulE_of_eq hyl, Except.bind, hz2,
      emulE_of_eq hz2r]

/-- Witness for C1 at the base operator `diag(2, 3)` with `l = [5, 7]`,
`r = [10, 20]`, `x = [1, 1]`, `y = [1, 2]`. -/
theorem claim1_scaling_wrappers_witness :
    MultRightMatrix.init (diagOp [2,3]) (some [10,20]) = .ok ⟨diagOp [2,3], [10,20]⟩ ∧
    (MultRightMatrix.mk (diagOp [2,3]) [10,20]).mult [1,1] =
      (diagOp [2,3]).mult (emul [1,1] [10,20]) ∧
    (MultRightMatrix.mk (diagOp [2,3]) [10,20]).transMult [1,2] =
      .ok (emul [2,6] [10,20]) ∧
    MultLeftMatrix.init (diagOp [2,3]) [5,7] = .ok ⟨diagOp [2,3], [5,7]⟩ ∧
    (MultLeftMatrix.mk (diagOp [2,3]) [5,7]).mult [1,1] = .ok (emul [2,3] [5,7]) ∧
    (MultLeftMatrix.mk (diagOp [2,3]) [5,7]).transMult [1,2] =
      (diagOp [2,3]).transMult (emul [1,2] [5,7]) ∧
    MultLeftRightMatrix.init (diagOp [2,3]) [5,7] [10,20] =
      .ok ⟨diagOp [2,3], [5,7], [10,20]⟩ ∧
    (MultLeftRightMatrix.mk (diagOp [2,3]) [5,7] [10,20]).mult [1,1] =
      .ok (emul [5,7] [20,60]) ∧
    (MultLeftRightMatrix.mk (diagOp [2,3]) [5,7] [10,20]).transMult [1,2] =
      .ok (emul [10,20] [10,42]) :=
  claim1_scaling_wrappers (diagOp [2,3]) (diagOp_wf _) [5,7] [10,20] [1,1] [1,2]
    [2,3] [2,6] [20,60] [10,42] rfl rfl rfl rfl
    (by norm_num [diagOp, emul]) (by norm_num [diagOp, emul])
    (by norm_num [diagOp, emul]) (by norm_num [diagOp, emul])

/-- Claim C6: product combinator.  For operators `A`, `B` with
`A.cols() == B.rows()`, `Mult2Matrix(A, B)` has `rows() == A.rows()` and
`cols() == B.cols()`, `mult(x) == A.mult(B.mult(x))` for every `x` of
length `B.cols()`, and `transMult(y) == B.transMult(A.transMult(y))` for
every `y` of length `A.rows()` — `w` and `v` naming the successful inner
applications. -/
theorem claim6_product (A B : LinOp) (x y w v : Vec)
    (hinner : A.cols = B.rows)
    (hx : x.length = B.cols) (hy : y.length = A.rows)
    (hw : B.mult x = .ok w) (hv : A.transMult y = .ok v) :
    Mult2Matrix.init A B = .ok ⟨A, B⟩ ∧
    (Mult2Matrix.mk A B).rows = A.rows ∧
    (Mult2Matrix.mk A B).cols = B.cols ∧
    (Mult2Matrix.mk A B).mult x = A.mult w ∧
    (Mult2Matrix.mk A B).transMult y = B.transMult v := by
  refine ⟨?_, rfl, rfl, ?_, ?_⟩
  · simp [Mult2Matrix.init, hinner]
  · simp [Mult2Matrix.mult, hw, Except.bind]
  · simp [Mult2Matrix.transMult, hv, Except.bind]

/-- Witness for C6 at `A = diag(2, 3)`, `B = diag(4, 5)`,
`x = y = [1, 1]`. -/
theorem claim6_product_witness :
    Mult2Matrix.init (diagOp [2,3]) (diagOp [4,5]) =
      .ok ⟨diagOp [2,3], diagOp [4,5]⟩ ∧
    (Mult2Matrix.mk (diagOp [2,3]) (diagOp [4,5])).rows = (diagOp [2,3]).rows ∧
    (Mult2Matrix.mk (diagOp [2,3]) (diagOp [4,5])).cols = (diagOp [4,5]).cols ∧
    (Mult2Matrix.mk (diagOp [2,3]) (diagOp [4,5])).mult [1,1] =
      (diagOp [2,3]).mult [4,5] ∧
    (Mult2Matrix.mk (diagOp [2,3]) (diagOp [4,5])).transMult [1,1] =
      (diagOp [4,5]).transMult [2,3] :=
  claim6_product (diagOp [2,3]) (diagOp [4,5]) [1,1] [1,1] [4,5] [2,3]
    rfl rfl rfl (by norm_num [diagOp, emul]) (by norm_num [diagOp, emul])

/-- Claim C7: sum combinator.  For operators `A`, `B` of equal shape,
`Add2Matrix(A, B)` has the shape of `A`, `mult(x)` is the element-wise
sum of `A.mult(x)` and `B.mult(x)`, `transMult(y)` likewise — and, as
the concrete scenario, the sum of the diagonal operators `[1, 2]` and
`[3, 4]` applied to `[1, 1]` returns `[4, 6]`. -/
theorem claim7_sum (A B : LinOp) (x y u v s t : Vec)
    (hA : A.WF) (hB : B.WF)
    (hrows : A.rows = B.rows) (hcols : A.cols = B.cols)
    (hx : x.length = A.cols) (hy : y.length = A.rows)
    (hu : A.mult x = .ok u) (hv : B.mult x = .ok v)
    (hs : A.transMult y = .ok s) (ht : B.transMult y = .ok t) :
    Add2Matrix.init A B = .ok ⟨A, B⟩ ∧
    (Add2Matrix.mk A B).rows = A.rows ∧
    (Add2Matrix.mk A B).cols = A.cols ∧
    (Add2Matrix.mk A B).mult x = .ok (List.zipWith (· + ·) u v) ∧
    (Add2Matrix.mk A B).transMult y = .ok (List.zipWith (· + ·) s t) ∧
    (Add2Matrix.mk (DiagonalMatrix.mk [1,2]).toLinOp
      (DiagonalMatrix.mk [3,4]).toLinOp).mult [1,1] = .ok [4,6] := by
  have huv : u.length = v.length :=
    (hA.mult_len hx hu).trans (hrows.trans (hB.mult_len (hx.trans hcols) hv).symm)
  have hst : s.length = t.length :=
    (hA.transMult_len hy hs).trans
      (hcols.trans (hB.transMult_len (hy.trans hrows) ht).symm)
  refine ⟨?_, rfl, rfl, ?_, ?_, ?_⟩
  · simp [Add2Matrix.init, hrows, hcols]
  · simp [Add2Matrix.mult, hu, hv, Except.bind, eaddE_of_eq huv]
  · simp [Add2Matrix.transMult, hs, ht, Except.bind, eaddE_of_eq hst]
  · norm_num [Add2Matrix.mult, DiagonalMatrix.toLinOp, DiagonalMatrix.mult,
      emulE, emul, eaddE, Except.bind]

/-- Witness for C7 at `A = diag(2, 3)`, `B = diag(4, 5)`,
`x = y = [1, 1]`. -/
theorem claim7_sum_witness :
    Add2Matrix.init (diagOp [2,3]) (diagOp [4,5]) =
      .ok ⟨diagOp [2,3], diagOp [4,5]⟩ ∧
    (Add2Matrix.mk (diagOp [2,3]) (diagOp [4,5])).rows = (diagOp [2,3]).rows ∧
    (Add2Matrix.mk (diagOp [2,3]) (diagOp [4,5])).cols = (diagOp [2,3]).cols ∧
    (Add2Matrix.mk (diagOp [2,3]) (diagOp [4,5])).mult [1,1] =
      .ok (List.zipWith (· + ·) [2,3] [4,5]) ∧
    (Add2Matrix.mk (diagOp [2,3]) (diagOp [4,5])).transMult [1,1] =
      .ok (List.zipWith (· + ·) [2,3] [4,5]) ∧
    (Add2Matrix.mk (DiagonalMatrix.mk [1,2]).toLinOp
      (DiagonalMatrix.mk [3,4]).toLinOp).mult [1,1] = .ok [4,6] :=
  claim7_sum (diagOp [2,3]) (diagOp [4,5]) [1,1] [1,1] [2,3] [4,5] [2,3] [4,5]
    (diagOp_wf _) (diagOp_wf _) rfl rfl rfl rfl
    (by norm_num [diagOp, emul]) (by norm_num [diagOp, emul])
    (by norm_num [diagOp, emul]) (by norm_num [diagOp, emul])

/-- Claim C10 (implicit): the rebinding interface of `MultLeftMatrix` is
inverted — assignment to `m.l` raises `AttributeError` because the
property `l` has no setter, while assignment to `m.r` rebinds the left
weighting vector, after which `mult(x) = A.mult(x) ⊙ v`. -/
theorem claim10_inverted_setter (A : LinOp) (m : MultLeftMatrix) (v x u : Vec)
    (hx : x.length = A.cols) (hu : A.mult x = .ok u) :
    MultLeftMatrix.setAttrL m v = .error .attributeError ∧
    MultLeftMatrix.setAttrR m v = .ok ⟨m.A, v⟩ ∧
    (MultLeftMatrix.mk A v).mult x = emulE u v := by
  refine ⟨rfl, rfl, ?_⟩
  simp [MultLeftMatrix.mult, hu, Except.bind]

/-- Witness for C10 at the wrapper over `diag(2, 3)` with old left
vector `[5, 7]`, rebound to `v = [9, 11]`, applied to `x = [1, 1]`. -/
theorem claim10_inverted_setter_witness :
    MultLeftMatrix.setAttrL ⟨diagOp [2,3], [5,7]⟩ [9,11] = .error .attributeError ∧
    MultLeftMatrix.setAttrR ⟨diagOp [2,3], [5,7]⟩ [9,11] =
      .ok ⟨diagOp [2,3], [9,11]⟩ ∧
    (MultLeftMatrix.mk (diagOp [2,3]) [9,11]).mult [1,1] = emulE [2,3] [9,11] :=
  claim10_inverted_setter (diagOp [2,3]) ⟨diagOp [2,3], [5,7]⟩ [9,11] [1,1] [2,3]
    rfl (by norm_num [diagOp, emul])

/-- Counterexample to C3 as stated: `MultRightMatrix.__init__` performs
no validation, so construction with a weight vector of length 3 over a
2-column base operator succeeds instead of raising. -/
theorem claim3_counterexample :
    MultRightMatrix.init (diagOp [1,1]) (some [1,2,3]) =
      .ok ⟨diagOp [1,1], [1,2,3]⟩ ∧
    ([1,2,3] : Vec).length ≠ (diagOp [1,1]).cols :=
  ⟨rfl, by decide⟩

/-- Claim C3 as amended: the left and two-sided scaling wrappers, the
sum and product combinators and the inverse-square-root constructor all
validate their declared dimensions eagerly at construction time — the
two-sided wrapper performing both length checks: it raises on a
right-vector length mismatch, and also on a left-vector length mismatch
when the right vector is correct — but `MultRightMatrix` performs no
validation and accepts a weight vector of any length. -/
theorem claim3_amended (A1 A2 A3 B3 A4 B4 A5 : LinOp) (l l2 r l5 r5 : Vec)
    (sh : ℕ × ℕ) (ew : List ℝ) (EV : List (List ℝ))
    (h1 : A1.rows ≠ l.length)
    (h2 : A2.cols ≠ r.length)
    (h2l : A5.cols = r5.length)
    (h2r : A5.rows ≠ l5.length)
    (h3 : A3.rows ≠ B3.rows ∨ A3.cols ≠ B3.cols)
    (h4 : A4.cols ≠ B4.rows)
    (h5 : sh.1 ≠ sh.2) :
    MultLeftMatrix.init A1 l = .error .exception ∧
    MultLeftRightMatrix.init A2 l2 r = .error .exception ∧
    MultLeftRightMatrix.init A5 l5 r5 = .error .exception ∧
    Add2Matrix.init A3 B3 = .error .assertionError ∧
    Mult2Matrix.init A4 B4 = .error .assertionError ∧
    Cm05Matrix.init sh ew EV = .error .exception ∧
    (∀ (A : LinOp) (v : Vec), MultRightMatrix.init A (some v) = .ok ⟨A, v⟩) := by
  refine ⟨?_, ?_, ?_, ?_, ?_, ?_, fun _ _ => rfl⟩
  · simp [MultLeftMatrix.init, h1]
  · simp [MultLeftRightMatrix.init, h2]
  · simp [MultLeftRightMatrix.init, h2l, h2r]
  · rcases h3 with h | h
    · simp [Add2Matrix.init, h]
    · by_cases hrw : A3.rows = B3.rows
      · simp [Add2Matrix.init, hrw, h]
      · simp [Add2Matrix.init, hrw]
  · simp [Mult2Matrix.init, h4]
  · simp [Cm05Matrix.init, h5]

/-- Witness for the amended C3 at concrete mismatched shapes, including
the two-sided wrapper with a correct right vector but a wrong-length
left vector. -/
theorem claim3_amended_witness :
    MultLeftMatrix.init (diagOp [1,1]) [1] = .error .exception ∧
    MultLeftRightMatrix.init (diagOp [1,1]) [1,2] [1,2,3] = .error .exception ∧
    MultLeftRightMatrix.init (diagOp [1,1]) [1] [1,2] = .error .exception ∧
    Add2Matrix.init (diagOp [1,1]) (diagOp [1,1,1]) = .error .assertionError ∧
    Mult2Matrix.init (diagOp [1,1]) (diagOp [1,1,1]) = .error .assertionError ∧
    Cm05Matrix.init (2, 3) [] [] = .error .exception ∧
    MultRightMatrix.init (diagOp [1,1]) (some [1,2,3]) =
      .ok ⟨diagOp [1,1], [1,2,3]⟩ := by
  have h := claim3_amended (diagOp [1,1]) (diagOp [1,1]) (diagOp [1,1])
    (diagOp [1,1,1]) (diagOp [1,1]) (diagOp [1,1,1]) (diagOp [1,1])
    [1] [1,2] [1,2,3] [1] [1,2]
    (2, 3) [] [] (by decide) (by decide) (by decide) (by decide)
    (Or.inl (by decide)) (by decide) (by decide)
  exact ⟨h.1, h.2.1, h.2.2.1, h.2.2.2.1, h.2.2.2.2.1, h.2.2.2.2.2.1,
    h.2.2.2.2.2.2 (diagOp [1,1]) [1,2,3]⟩

/-- Counterexample to C4 as stated: rebinding the weight vector of a
`MultRightMatrix` to a wrong-length vector succeeds silently instead of
raising at rebind time. -/
theorem claim4_counterexample :
    (MultRightMatrix.mk (diagOp [1,1]) [1,1]).setAttrR [1,2,3] =
      .ok (MultRightMatrix.mk (diagOp [1,1]) [1,2,3]) ∧
    ([1,2,3] : Vec).length ≠ (diagOp [1,1]).cols :=
  ⟨rfl, by decide⟩

/-- Claim C4 as amended: no weight-vector setter re-validates.  The
setter named `r` of each wrapper stores the replacement vector
unconditionally (for `MultLeftMatrix` it rebinds the left vector), and
assignment to `l` on the left and two-sided wrappers raises
`AttributeError` because the property `l` has no setter. -/
theorem claim4_amended :
    (∀ (m : MultRightMatrix) (v : Vec), m.setAttrR v = .ok ⟨m.A, v⟩) ∧
    (∀ (m : MultLeftMatrix) (v : Vec), m.setAttrL v = .error .attributeError) ∧
    (∀ (m : MultLeftMatrix) (v : Vec), m.setAttrR v = .ok ⟨m.A, v⟩) ∧
    (∀ (m : MultLeftRightMatrix) (v : Vec), m.setAttrL v = .error .attributeError) ∧
    (∀ (m : MultLeftRightMatrix) (v : Vec), m.setAttrR v = .ok ⟨m.A, m.l, v⟩) :=
  ⟨fun _ _ => rfl, fun _ _ => rfl, fun _ _ => rfl, fun _ _ => rfl, fun _ _ => rfl⟩

/-! Preservation of the apply-time contract by each constructor. -/

theorem multRight_wf {A : LinOp} {r : Vec} (hA : A.WF) (hr : r.length = A.cols) :
    (MultRightMatrix.mk A r).toLinOp.WF := by
  constructor
  · intro x hx
    have hx' : x.length = A.cols := hx
    have hxr : x.length = r.length := hx'.trans hr.symm
    have hexr : (emul x r).length = A.cols := by
      rw [length_emul, hx', hr]; exact min_self _
    obtain ⟨u, hu, hul⟩ := hA.mult_ok (emul x r) hexr
    refine ⟨u, ?_, hul⟩
    show (MultRightMatrix.mk A r).mult x = .ok u
    simp [MultRightMatrix.mult, hxr, hu]
  · intro x hx
    have hxr : x.length ≠ r.length := by rw [hr]; exact hx
    show okB ((MultRightMatrix.mk A r).mult x) = false
    simp [MultRightMatrix.mult, hxr, okB]
  · intro y hy
    obtain ⟨v, hv, hvl⟩ := hA.transMult_ok y hy
    have hvr : v.length = r.length := hvl.trans hr.symm
    refine ⟨emul v r, ?_, ?_⟩
    · show (MultRightMatrix.mk A r).transMult y = .ok (emul v r)
      simp [MultRightMatrix.transMult, hv, Except.bind, emulE_of_eq hvr]
    · show (emul v r).length = A.cols
      rw [length_emul, hvl, hr]; exact min_self _
  · intro y hy
    obtain ⟨er, her⟩ := (okB_eq_false_iff _).mp (hA.transMult_err y hy)
    show okB ((MultRightMatrix.mk A r).transMult y) = false
    simp [MultRightMatrix.transMult, her, Except.bind, okB]

theorem multLeft_wf {A : LinOp} {l : Vec} (hA : A.WF) (hl : l.length = A.rows) :
    (MultLeftMatrix.mk A l).toLinOp.WF := by
  constructor
  · intro x hx
    obtain ⟨u, hu, hul⟩ := hA.mult_ok x hx
    have h1 : u.length = l.length := hul.trans hl.symm
    refine ⟨emul u l, ?_, ?_⟩
    · show (MultLeftMatrix.mk A l).mult x = .ok (emul u l)
      simp [MultLeftMatrix.mult, hu, Except.bind, emulE_of_eq h1]
    · show (emul u l).length = A.rows
      rw [length_emul, hul, hl]; exact min_self _
  · intro x hx
    obtain ⟨er, her⟩ := (okB_eq_false_iff _).mp (hA.mult_err x hx)
    show okB ((MultLeftMatrix.mk A l).mult x) = false
    simp [MultLeftMatrix.mult, her, Except.bind, okB]
  · intro y hy
    have hyl : y.length = l.length := hy.trans hl.symm
    have heyl : (emul y l).length = A.rows := by
      rw [length_emul, hy, hl]; exact min_self _
    obtain ⟨v, hv, hvl⟩ := hA.transMult_ok (emul y l) heyl
    refine ⟨v, ?_, hvl⟩
    show (MultLeftMatrix.mk A l).transMult y = .ok v
    simp [MultLeftMatrix.transMult, emulE_of_eq hyl, Except.bind, hv]
  · intro y hy
    have hyl : y.length ≠ l.length := by rw [hl]; exact hy
    show okB ((MultLeftMatrix.mk A l).transMult y) = false
    simp [MultLeftMatrix.transMult, emulE, hyl, Except.bind, okB]

theorem multLeftRight_wf {A : LinOp} {l r : Vec} (hA : A.WF)
    (hl : l.length = A.rows) (hr : r.length = A.cols) :
    (MultLeftRightMatrix.mk A l r).toLinOp.WF := by
  constructor
  · intro x hx
    have hx' : x.length = A.cols := hx
    have hxr : x.length = r.length := hx'.trans hr.symm
    have hexr : (emul x r).length = A.cols := by
      rw [length_emul, hx', hr]; exact min_self _
    obtain ⟨u, hu, hul⟩ := hA.mult_ok (emul x r) hexr
    have h1 : u.length = l.length := hul.trans hl.symm
    refine ⟨emul u l, ?_, ?_⟩
    · show (MultLeftRightMatrix.mk A l r).mult x = .ok (emul u l)
      simp [MultLeftRightMatrix.mult, emulE_of_eq hxr, Except.bind, hu,
        emulE_of_eq h1]
    · show (emul u l).length = A.rows
      rw [length_emul, hul, hl]; exact min_self _
  · intro x hx
    have hxr : x.length ≠ r.length := by rw [hr]; exact hx
    show okB ((MultLeftRightMatrix.mk A l r).mult x) = false
    simp [MultLeftRightMatrix.mult, emulE, hxr, Except.bind, okB]
  · intro y hy
    have hyl : y.length = l.length := hy.trans hl.symm
    have heyl : (emul y l).length = A.rows := by
      rw [length_emul, hy, hl]; exact min_self _
    obtain ⟨v, hv, hvl⟩ := hA.transMult_ok (emul y l) heyl
    have h2 : v.length = r.length := hvl.trans hr.symm
    refine ⟨emul v r, ?_, ?_⟩
    · show (MultLeftRightMatrix.mk A l r).transMult y = .ok (emul v r)
      simp [MultLeftRightMatrix.transMult, emulE_of_eq hyl, Except.bind, hv,
        emulE_of_eq h2]
    · show (emul v r).length = A.cols
      rw [length_emul, hvl, hr]; exact min_self _
  · intro y hy
    have hyl : y.length ≠ l.length := by rw [hl]; exact hy
    show okB ((MultLeftRightMatrix.mk A l r).transMult y) = false
    simp [MultLeftRightMatrix.transMult, emulE, hyl, Except.bind, okB]

theorem add2_wf {A B : LinOp} (hA : A.WF) (hB : B.WF)
    (hrows : A.rows = B.rows) (hcols : A.cols = B.cols) :
    (Add2Matrix.mk A B).toLinOp.WF := by
  constructor
  · intro x hx
    obtain ⟨u, hu, hul⟩ := hA.mult_ok x hx
    obtain ⟨v, hv, hvl⟩ := hB.mult_ok x ((hx : x.length = A.cols).trans hcols)
    have huv : u.length = v.length := hul.trans (hrows.trans hvl.symm)
    refine ⟨List.zipWith (· + ·) u v, ?_, ?_⟩
    · show (Add2Matrix.mk A B).mult x = .ok (List.zipWith (· + ·) u v)
      simp [Add2Matrix.mult, hu, hv, Except.bind, eaddE_of_eq huv]
    · show (List.zipWith (· + ·) u v).length = A.rows
      rw [List.length_zipWith, hul, hvl, ← hrows]; exact min_self _
  · intro x hx
    obtain ⟨er, her⟩ := (okB_eq_false_iff _).mp (hA.mult_err x hx)
    show okB ((Add2Matrix.mk A B).mult x) = false
    simp [Add2Matrix.mult, her, Except.bind, okB]
  · intro y hy
    obtain ⟨u, hu, hul⟩ := hA.transMult_ok y hy
    obtain ⟨v, hv, hvl⟩ := hB.transMult_ok y ((hy : y.length = A.rows).trans hrows)
    have huv : u.length = v.length := hul.trans (hcols.trans hvl.symm)
    refine ⟨List.zipWith (· + ·) u v, ?_, ?_⟩
    · show (Add2Matrix.mk A B).transMult y = .ok (List.zipWith (· + ·) u v)
      simp [Add2Matrix.transMult, hu, hv, Except.bind, eaddE_of_eq huv]
    · show (List.zipWith (· + ·) u v).length = A.cols
      rw [List.length_zipWith, hul, hvl, ← hcols]; exact min_self _
  · intro y hy
    obtain ⟨er, her⟩ := (okB_eq_false_iff _).mp (hA.transMult_err y hy)
    show okB ((Add2Matrix.mk A B).transMult y) = false
    simp [Add2Matrix.transMult, her, Except.bind, okB]

theorem mult2_wf {A B : LinOp} (hA : A.WF) (hB : B.WF)
    (hinner : A.cols = B.rows) :
    (Mult2Matrix.mk A B).toLinOp.WF := by
  constructor
  · intro x hx
    obtain ⟨w, hw, hwl⟩ := hB.mult_ok x hx
    obtain ⟨u, hu, hul⟩ := hA.mult_ok w (hwl.trans hinner.symm)
    refine ⟨u, ?_, hul⟩
    show (Mult2Matrix.mk A B).mult x = .ok u
    simp [Mult2Matrix.mult, hw, Except.bind, hu]
  · intro x hx
    obtain ⟨er, her⟩ := (okB_eq_false_iff _).mp (hB.mult_err x hx)
    show okB ((Mult2Matrix.mk A B).mult x) = false
    simp [Mult2Matrix.mult, her, Except.bind, okB]
  · intro y hy
    obtain ⟨v, hv, hvl⟩ := hA.transMult_ok y hy
    obtain ⟨z, hz, hzl⟩ := hB.transMult_ok v (hvl.trans hinner)
    refine ⟨z, ?_, hzl⟩
    show (Mult2Matrix.mk A B).transMult y = .ok z
    simp [Mult2Matrix.transMult, hv, Except.bind, hz]
  · intro y hy
    obtain ⟨er, her⟩ := (okB_eq_false_iff _).mp (hA.transMult_err y hy)
    show okB ((Mult2Matrix.mk A B).transMult y) = false
    simp [Mult2Matrix.transMult, her, Except.bind, okB]

theorem diagonalMatrix_wf (d : Vec) : (DiagonalMatrix.mk d).toLinOp.WF := by
  constructor
  · intro x hx
    refine ⟨emul x d, ?_, ?_⟩
    · show (DiagonalMatrix.mk d).mult x = .ok (emul x d)
      simp [DiagonalMatrix.mult, emulE_of_eq (hx : x.length = d.length)]
    · show (emul x d).length = d.length
      rw [length_emul, (hx : x.length = d.length)]; exact min_self _
  · intro x hx
    have hx' : x.length ≠ d.length := hx
    show okB ((DiagonalMatrix.mk d).mult x) = false
    simp [DiagonalMatrix.mult, emulE, hx', okB]
  · intro y hy
    refine ⟨emul y d, ?_, ?_⟩
    · show (DiagonalMatrix.mk d).transMult y = .ok (emul y d)
      simp [DiagonalMatrix.transMult, emulE_of_eq (hy : y.length = d.length)]
    · show (emul y d).length = d.length
      rw [length_emul, (hy : y.length = d.length)]; exact min_self _
  · intro y hy
    have hy' : y.length ≠ d.length := hy
    show okB ((DiagonalMatrix.mk d).transMult y) = false
    simp [DiagonalMatrix.transMult, emulE, hy', okB]

/-- The computation over `ℝ` succeeded with a vector of length `n`. -/
def OkLenR (e : Except PyErr (List ℝ)) (n : ℕ) : Prop :=
  ∃ v, e = .ok v ∧ v.length = n

/-- Successful application of a stored `Cm05Matrix` state on a
correctly sized input, with the value it computes. -/
theorem cm05_mult_ok (n : ℕ) (ew : List ℝ) (EV : List (List ℝ)) (mul x : List ℝ)
    (hEVt : EV.transpose.length = n)
    (hrectT : ∀ row ∈ EV.transpose, row.length = n)
    (hEV : EV.length = n)
    (hrect : ∀ row ∈ EV, row.length = n)
    (hmul : mul.length = n) (hx : x.length = n) :
    Cm05Matrix.mult ⟨n, ew, EV, mul⟩ x =
      .ok (matVecR EV (emul (matVecR EV.transpose x) mul)) ∧
    (matVecR EV (emul (matVecR EV.transpose x) mul)).length = n := by
  have hp : (matVecR EV.transpose x).length = n := by
    simp [matVecR, hEVt]
  have hq : (emul (matVecR EV.transpose x) mul).length = n := by
    rw [length_emul, hp, hmul]; exact min_self _
  have hall1 : EV.transpose.all (fun row => row.length == x.length) = true := by
    rw [List.all_eq_true]; intro row hrow
    simpa using (hrectT row hrow).trans hx.symm
  have hall2 : EV.all
      (fun row => row.length == (emul (matVecR EV.transpose x) mul).length) = true := by
    rw [List.all_eq_true]; intro row hrow
    simpa [hq] using hrect row hrow
  constructor
  · simp [Cm05Matrix.mult, matVecE, hall1, Except.bind,
      emulE_of_eq (hp.trans hmul.symm), hall2]
  · simp [matVecR, hEV]

/-- Application of a stored `Cm05Matrix` state on a wrongly sized input
fails with a dimension error (the first `np.dot`). -/
theorem cm05_mult_err (n : ℕ) (ew : List ℝ) (EV : List (List ℝ)) (mul x : List ℝ)
    (hn : 0 < n)
    (hEVt : EV.transpose.length = n)
    (hrectT : ∀ row ∈ EV.transpose, row.length = n)
    (hx : x.length ≠ n) :
    Cm05Matrix.mult ⟨n, ew, EV, mul⟩ x = .error .dimError := by
  have hne : EV.transpose ≠ [] := by
    intro h
    rw [h] at hEVt
    simp at hEVt
    omega
  obtain ⟨row, hrow⟩ := List.exists_mem_of_ne_nil _ hne
  have hrl : row.length ≠ x.length := by
    rw [hrectT row hrow]
    exact fun h => hx h.symm
  have hall : EV.transpose.all (fun r2 => r2.length == x.length) = false := by
    rw [List.all_eq_false]
    exact ⟨row, hrow, by simpa using hrl⟩
  simp [Cm05Matrix.mult, matVecE, hall, Except.bind]

/-- Counterexample to C5 as stated: a `MultRightMatrix` over a 2-column
base, applied to an input of length 3, fails with `AttributeError` (the
broken complex-number fallback reads the never-assigned attribute
`perm`), not with a dimension or shape error. -/
theorem claim5_counterexample :
    (MultRightMatrix.mk (diagOp [1,1]) [1,1]).mult [1,2,3] =
      .error .attributeError ∧
    PyErr.attributeError ≠ PyErr.dimError :=
  ⟨rfl, by decide⟩

/-- Claim C5 as amended: every operator of this layer rejects inputs of
the wrong length and, on a correctly sized input, returns an output of
the dual length (the `WF` contract is preserved by every constructor,
and the inverse-square-root operator behaves likewise); however the
failure of the right-scaled wrapper on a wrong-length forward input is
an `AttributeError` from the broken fallback branch, not a dimension
error. -/
theorem claim5_amended (A B1 B2 : LinOp) (l r d xb : Vec)
    (hA : A.WF) (hB1 : B1.WF) (hB2 : B2.WF)
    (hl : l.length = A.rows) (hr : r.length = A.cols)
    (hrows : A.rows = B1.rows) (hcols : A.cols = B1.cols)
    (hinner : A.cols = B2.rows)
    (hxb : xb.length ≠ A.cols)
    (n : ℕ) (hn : 0 < n) (ew mul : List ℝ) (EV : List (List ℝ))
    (hEV : EV.length = n) (hrect : ∀ row ∈ EV, row.length = n)
    (hEVt : EV.transpose.length = n)
    (hrectT : ∀ row ∈ EV.transpose, row.length = n)
    (hmul : mul.length = n)
    (xg xb2 : List ℝ) (hxg : xg.length = n) (hxb2 : xb2.length ≠ n) :
    (MultRightMatrix.mk A r).toLinOp.WF ∧
    (MultRightMatrix.mk A r).mult xb = .error .attributeError ∧
    (MultLeftMatrix.mk A l).toLinOp.WF ∧
    (MultLeftRightMatrix.mk A l r).toLinOp.WF ∧
    (Add2Matrix.mk A B1).toLinOp.WF ∧
    (Mult2Matrix.mk A B2).toLinOp.WF ∧
    (DiagonalMatrix.mk d).toLinOp.WF ∧
    OkLenR (Cm05Matrix.mult ⟨n, ew, EV, mul⟩ xg) n ∧
    Cm05Matrix.mult ⟨n, ew, EV, mul⟩ xb2 = .error .dimError := by
  refine ⟨multRight_wf hA hr, ?_, multLeft_wf hA hl, multLeftRight_wf hA hl hr,
    add2_wf hA hB1 hrows hcols, mult2_wf hA hB2 hinner, diagonalMatrix_wf d,
    ?_, cm05_mult_err n ew EV mul xb2 hn hEVt hrectT hxb2⟩
  · have hxr : xb.length ≠ r.length := by rw [hr]; exact hxb
    simp [MultRightMatrix.mult, hxr]
  · obtain ⟨heq, hlen⟩ := cm05_mult_ok n ew EV mul xg hEVt hrectT hEV hrect hmul hxg
    exact ⟨_, heq, hlen⟩

/-- Witness for the amended C5 at concrete 2-by-2 diagonal leaves and a
size-1 inverse-square-root state. -/
theorem claim5_amended_witness :
    (MultRightMatrix.mk (diagOp [2,3]) [3,4]).toLinOp.WF ∧
    (MultRightMatrix.mk (diagOp [2,3]) [3,4]).mult [1,2,3] =
      .error .attributeError ∧
    (MultLeftMatrix.mk (diagOp [2,3]) [1,2]).toLinOp.WF ∧
    (MultLeftRightMatrix.mk (diagOp [2,3]) [1,2] [3,4]).toLinOp.WF ∧
    (Add2Matrix.mk (diagOp [2,3]) (diagOp [4,5])).toLinOp.WF ∧
    (Mult2Matrix.mk (diagOp [2,3]) (diagOp [6,7])).toLinOp.WF ∧
    (DiagonalMatrix.mk [8,9]).toLinOp.WF ∧
    OkLenR (Cm05Matrix.mult ⟨1, [2], [[1]], [5]⟩ [7]) 1 ∧
    Cm05Matrix.mult ⟨1, [2], [[1]], [5]⟩ [1,2] = .error .dimError := by
  have ht : ([[ (1:ℝ) ]]).transpose = [[1]] := rfl
  exact claim5_amended (diagOp [2,3]) (diagOp [4,5]) (diagOp [6,7])
    [1,2] [3,4] [8,9] [1,2,3]
    (diagOp_wf _) (diagOp_wf _) (diagOp_wf _)
    rfl rfl rfl rfl rfl (by decide)
    1 (by decide) [2] [5] [[1]]
    rfl (by simp) (by rw [ht]; rfl) (by rw [ht]; simp) rfl
    [7] [1,2] rfl (by decide)

/-! Preservation of adjoint consistency by each constructor. -/

theorem multRight_adj {A : LinOp} {r : Vec} (hAc : A.AdjointConsistent)
    (hr : r.length = A.cols) :
    (MultRightMatrix.mk A r).toLinOp.AdjointConsistent := by
  intro x y u v hx hy hmu hmv
  have hx' : x.length = A.cols := hx
  have hy' : y.length = A.rows := hy
  simp only [MultRightMatrix.toLinOp, MultRightMatrix.mult] at hmu
  simp only [MultRightMatrix.toLinOp, MultRightMatrix.transMult] at hmv
  by_cases hxr : x.length = r.length
  · rw [if_neg (not_not_intro hxr)] at hmu
    obtain ⟨z, hz, hzv⟩ := exceptBind_ok hmv
    obtain ⟨hzr, hveq⟩ := emulE_eq_ok hzv
    subst hveq
    have hexr : (emul x r).length = A.cols := by
      rw [length_emul, hxr, min_self, hr]
    rw [hAc (emul x r) y u z hexr hy' hmu hz]
    exact dot_emul x r z
  · rw [if_pos hxr] at hmu
    exact absurd hmu (by simp)

theorem multLeft_adj {A : LinOp} {l : Vec} (hAc : A.AdjointConsistent)
    (hl : l.length = A.rows) :
    (MultLeftMatrix.mk A l).toLinOp.AdjointConsistent := by
  intro x y u v hx hy hmu hmv
  have hx' : x.length = A.cols := hx
  simp only [MultLeftMatrix.toLinOp, MultLeftMatrix.mult] at hmu
  simp only [MultLeftMatrix.toLinOp, MultLeftMatrix.transMult] at hmv
  obtain ⟨a, ha, hau⟩ := exceptBind_ok hmu
  obtain ⟨hal, hueq⟩ := emulE_eq_ok hau
  subst hueq
  obtain ⟨w, hw, hwv⟩ := exceptBind_ok hmv
  obtain ⟨hyl, hweq⟩ := emulE_eq_ok hw
  subst hweq
  have heyl : (emul y l).length = A.rows := by
    rw [length_emul, hyl, min_self, hl]
  rw [dot_emul]
  exact hAc x (emul y l) a v hx' heyl ha hwv

theorem multLeftRight_adj {A : LinOp} {l r : Vec} (hAc : A.AdjointConsistent)
    (hl : l.length = A.rows) (hr : r.length = A.cols) :
    (MultLeftRightMatrix.mk A l r).toLinOp.AdjointConsistent := by
  intro x y u v hx hy hmu hmv
  simp only [MultLeftRightMatrix.toLinOp, MultLeftRightMatrix.mult] at hmu
  simp only [MultLeftRightMatrix.toLinOp, MultLeftRightMatrix.transMult] at hmv
  obtain ⟨w, hw, h2⟩ := exceptBind_ok hmu
  obtain ⟨hxr, hweq⟩ := emulE_eq_ok hw
  subst hweq
  obtain ⟨a, ha, hau⟩ := exceptBind_ok h2
  obtain ⟨hal, hueq⟩ := emulE_eq_ok hau
  subst hueq
  obtain ⟨w2, hw2, h3⟩ := exceptBind_ok hmv
  obtain ⟨hyl, hw2eq⟩ := emulE_eq_ok hw2
  subst hw2eq
  obtain ⟨z, hz, hzv⟩ := exceptBind_ok h3
  obtain ⟨hzr, hveq⟩ := emulE_eq_ok hzv
  subst hveq
  have hexr : (emul x r).length = A.cols := by
    rw [length_emul, hxr, min_self, hr]
  have heyl : (emul y l).length = A.rows := by
    rw [length_emul, hyl, min_self, hl]
  rw [dot_emul, hAc (emul x r) (emul y l) a z hexr heyl ha hz]
  exact dot_emul x r z

theorem add2_adj {A B : LinOp} (hAc : A.AdjointConsistent)
    (hBc : B.AdjointConsistent) (hrows : A.rows = B.rows)
    (hcols : A.cols = B.cols) :
    (Add2Matrix.mk A B).toLinOp.AdjointConsistent := by
  intro x y u v hx hy hmu hmv
  have hx' : x.length = A.cols := hx
  have hy' : y.length = A.rows := hy
  simp only [Add2Matrix.toLinOp, Add2Matrix.mult] at hmu
  simp only [Add2Matrix.toLinOp, Add2Matrix.transMult] at hmv
  obtain ⟨a, ha, h2⟩ := exceptBind_ok hmu
  obtain ⟨b, hb, hab⟩ := exceptBind_ok h2
  obtain ⟨habl, hueq⟩ := eaddE_eq_ok hab
  subst hueq
  obtain ⟨s, hs, h3⟩ := exceptBind_ok hmv
  obtain ⟨t, ht2, hst⟩ := exceptBind_ok h3
  obtain ⟨hstl, hveq⟩ := eaddE_eq_ok hst
  subst hveq
  rw [dot_zipAdd_left a b y habl, dot_zipAdd_right x s t hstl,
    hAc x y a s hx' hy' ha hs,
    hBc x y b t (hx'.trans hcols) (hy'.trans hrows) hb ht2]

theorem mult2_adj {A B : LinOp} (hA : A.WF) (hB : B.WF)
    (hAc : A.AdjointConsistent) (hBc : B.AdjointConsistent)
    (hinner : A.cols = B.rows) :
    (Mult2Matrix.mk A B).toLinOp.AdjointConsistent := by
  intro x y u v hx hy hmu hmv
  have hx' : x.length = B.cols := hx
  have hy' : y.length = A.rows := hy
  simp only [Mult2Matrix.toLinOp, Mult2Matrix.mult] at hmu
  simp only [Mult2Matrix.toLinOp, Mult2Matrix.transMult] at hmv
  obtain ⟨w, hw, hu⟩ := exceptBind_ok hmu
  obtain ⟨z, hz, hv⟩ := exceptBind_ok hmv
  have hwl : w.length = A.cols := (hB.mult_len hx' hw).trans hinner.symm
  have hzl : z.length = B.rows := (hA.transMult_len hy' hz).trans hinner
  rw [hAc w y u z hwl hy' hu hz, hBc x z w v hx' hzl hw hv]

theorem diagMatrix_adj (d : Vec) :
    (DiagonalMatrix.mk d).toLinOp.AdjointConsistent := by
  intro x y u v hx hy hmu hmv
  simp only [DiagonalMatrix.toLinOp, DiagonalMatrix.mult] at hmu
  simp only [DiagonalMatrix.toLinOp, DiagonalMatrix.transMult] at hmv
  obtain ⟨hxd, hueq⟩ := emulE_eq_ok hmu
  obtain ⟨hyd, hveq⟩ := emulE_eq_ok hmv
  subst hueq
  subst hveq
  exact dot_emul x d y

/-- Claim C8: adjoint consistency.  Every operator built by the scaling
(left, right, both), sum, product or diagonal constructors over
well-formed, adjoint-consistent leaves is itself adjoint-consistent:
`dot (O.mult x) y = dot x (O.transMult y)` on every pair of correctly
sized inputs where both applications succeed. -/
theorem claim8_adjoint_consistency (A B1 B2 : LinOp) (l r d : Vec)
    (hA : A.WF) (hB2 : B2.WF)
    (hAc : A.AdjointConsistent) (hB1c : B1.AdjointConsistent)
    (hB2c : B2.AdjointConsistent)
    (hl : l.length = A.rows) (hr : r.length = A.cols)
    (hrows : A.rows = B1.rows) (hcols : A.cols = B1.cols)
    (hinner : A.cols = B2.rows) :
    (MultRightMatrix.mk A r).toLinOp.AdjointConsistent ∧
    (MultLeftMatrix.mk A l).toLinOp.AdjointConsistent ∧
    (MultLeftRightMatrix.mk A l r).toLinOp.AdjointConsistent ∧
    (Add2Matrix.mk A B1).toLinOp.AdjointConsistent ∧
    (Mult2Matrix.mk A B2).toLinOp.AdjointConsistent ∧
    (DiagonalMatrix.mk d).toLinOp.AdjointConsistent :=
  ⟨multRight_adj hAc hr, multLeft_adj hAc hl, multLeftRight_adj hAc hl hr,
    add2_adj hAc hB1c hrows hcols, mult2_adj hA hB2 hAc hB2c hinner,
    diagMatrix_adj d⟩

/-- Witness for C8 at concrete 2-by-2 diagonal leaves. -/
theorem claim8_adjoint_consistency_witness :
    (MultRightMatrix.mk (diagOp [2,3]) [3,4]).toLinOp.AdjointConsistent ∧
    (MultLeftMatrix.mk (diagOp [2,3]) [1,2]).toLinOp.AdjointConsistent ∧
    (MultLeftRightMatrix.mk (diagOp [2,3]) [1,2] [3,4]).toLinOp.AdjointConsistent ∧
    (Add2Matrix.mk (diagOp [2,3]) (diagOp [4,5])).toLinOp.AdjointConsistent ∧
    (Mult2Matrix.mk (diagOp [2,3]) (diagOp [6,7])).toLinOp.AdjointConsistent ∧
    (DiagonalMatrix.mk [8,9]).toLinOp.AdjointConsistent :=
  claim8_adjoint_consistency (diagOp [2,3]) (diagOp [4,5]) (diagOp [6,7])
    [1,2] [3,4] [8,9] (diagOp_wf _) (diagOp_wf _)
    (diagOp_adj _) (diagOp_adj _) (diagOp_adj _) rfl rfl rfl rfl rfl

/-- Claim C2: inverse-square-root operator.  Given the outputs
`(ew, EV)` of the external eigen-decomposition of a square matrix,
construction succeeds and stores the eigenvector matrix together with
the scales `s = 1/sqrt(ew)` element-wise; application computes
`V·(s ⊙ (Vᵗ·x))` for every correctly sized `x`; and the operator is
self-adjoint: `transMult = mult`. -/
theorem claim2_inverse_sqrt (n : ℕ) (ew x : List ℝ) (EV : List (List ℝ))
    (m : Cm05Matrix)
    (hew : ew.length = n) (hEV : EV.length = n)
    (hrect : ∀ row ∈ EV, row.length = n)
    (hEVt : EV.transpose.length = n)
    (hrectT : ∀ row ∈ EV.transpose, row.length = n)
    (hx : x.length = n)
    (hm : Cm05Matrix.init (n, n) ew EV = .ok m) :
    m = ⟨n, ew, EV, ew.map (fun e => Real.sqrt e⁻¹)⟩ ∧
    m.mul = ew.map (fun e => (Real.sqrt e)⁻¹) ∧
    m.mult x = .ok (invSqrtApply EV (ew.map (fun e => (Real.sqrt e)⁻¹)) x) ∧
    m.transMult x = m.mult x := by
  have h0 : Cm05Matrix.init (n, n) ew EV =
      .ok ⟨n, ew, EV, ew.map (fun e => Real.sqrt e⁻¹)⟩ := by
    simp [Cm05Matrix.init]
  rw [h0] at hm
  injection hm with h1
  subst h1
  have hmul_eq : ew.map (fun e => Real.sqrt e⁻¹) =
      ew.map (fun e => (Real.sqrt e)⁻¹) := by
    simp [Real.sqrt_inv]
  have hmull : (ew.map (fun e => Real.sqrt e⁻¹)).length = n := by
    simp [hew]
  obtain ⟨heq, _⟩ := cm05_mult_ok n ew EV (ew.map (fun e => Real.sqrt e⁻¹)) x
    hEVt hrectT hEV hrect hmull hx
  refine ⟨rfl, hmul_eq, ?_, rfl⟩
  show Cm05Matrix.mult _ x = _
  rw [heq]
  unfold invSqrtApply
  rw [hmul_eq]

/-- Witness for C2 at the size-1 decomposition `ew = [1]`,
`EV = [[1]]`, applied to `x = [2]`. -/
theorem claim2_inverse_sqrt_witness :
    (⟨1, [1], [[1]], List.map (fun e => Real.sqrt e⁻¹) [1]⟩ : Cm05Matrix) =
      ⟨1, [1], [[1]], List.map (fun e => Real.sqrt e⁻¹) [1]⟩ ∧
    (⟨1, [1], [[1]], List.map (fun e => Real.sqrt e⁻¹) [1]⟩ : Cm05Matrix).mul =
      List.map (fun e => (Real.sqrt e)⁻¹) [1] ∧
    (⟨1, [1], [[1]], List.map (fun e => Real.sqrt e⁻¹) [1]⟩ : Cm05Matrix).mult [2] =
      .ok (invSqrtApply [[1]] (List.map (fun e => (Real.sqrt e)⁻¹) [1]) [2]) ∧
    (⟨1, [1], [[1]], List.map (fun e => Real.sqrt e⁻¹) [1]⟩ : Cm05Matrix).transMult [2] =
      (⟨1, [1], [[1]], List.map (fun e => Real.sqrt e⁻¹) [1]⟩ : Cm05Matrix).mult [2] := by
  have ht : ([[ (1:ℝ) ]]).transpose = [[1]] := rfl
  exact claim2_inverse_sqrt 1 [1] [2] [[1]]
    ⟨1, [1], [[1]], List.map (fun e => Real.sqrt e⁻¹) [1]⟩
    rfl rfl (by simp) (by rw [ht]; rfl) (by rw [ht]; simp) rfl rfl

/-- Claim C9: the `NDMatrix` constructor never succeeds for a positive
replication count — the loop body evaluates `pg.Matrix()` with `pg`
unbound in the module, raising `NameError` before any block is added.
Evaluating the model at concrete failing inputs. -/
theorem claim9_ndmatrix_unbound_name :
    NDMatrix.init 1 3 4 = .error .nameError ∧
    NDMatrix.init 2 3 4 = .error .nameError ∧
    NDMatrix.init 5 1 1 = .error .nameError :=
  ⟨rfl, rfl, rfl⟩

end PgMatrix
